import Mathlib

/-!
Verification development for the cost-basis engine in `src/main.py`.

Shallow embedding conventions:
* Python floats are embedded as exact rationals (`ℚ`); the spec's "within
  floating tolerance" equalities become exact equalities over `ℚ`.
* Mutation is embedded as explicit state passing: a method that mutates
  `self` returns the new value of `self` alongside its result.
* A Python exception that is not caught is embedded as `Option`/`Except`
  returning `none` / `.error ()`.
-/

/-- Embeds the `Item` dataclass (src/main.py, lines 35-75): a lot of one
asset kind with attributed cost and fees. -/
structure Item where
  size : ℚ
  cost : ℚ
  fees : ℚ
  kind : String
  date : String
deriving DecidableEq

/-- Embeds `Item.take_at_most` (src/main.py, lines 43-69).  The Python
method mutates `self`; here the pair `(result, self-after)` is returned.
Note the `else` branch divides by `self.size`; Python reaches it only when
`size < self.size`, so with a non-negative request the divisor is nonzero
(the claims below never touch the `self.size = 0` slice of that branch,
where Python would raise `ZeroDivisionError`). -/
def Item.take_at_most (self : Item) (size : ℚ) : Item × Item :=
  if size ≥ self.size then
    (Item.mk self.size self.cost self.fees self.kind self.date,
     Item.mk 0 0 0 self.kind self.date)
  else
    let result : Item :=
      Item.mk size (self.cost * size / self.size) (self.fees * size / self.size)
        self.kind self.date
    (result,
     Item.mk (self.size - result.size) (self.cost - result.cost)
       (self.fees - result.fees) self.kind self.date)

/-- Embeds `Item.rate` (src/main.py, lines 71-75); `None` becomes `none`. -/
def Item.rate (self : Item) : Option ℚ :=
  if self.size = 0 then none else some (self.cost / self.size)

/-- Embeds the `InfAccount` class (src/main.py, lines 8-26): an infinite
source/sink with a fixed per-unit basis. -/
structure InfAccount where
  kind : String
  basis : ℚ
deriving DecidableEq

/-- Embeds `InfAccount.withdraw` (src/main.py, lines 13-20). -/
def InfAccount.withdraw (self : InfAccount) (size : ℚ) : Item :=
  Item.mk size (size * self.basis) 0 self.kind "?"

/-- Embeds `InfAccount.deposit` (src/main.py, lines 22-23): a no-op. -/
def InfAccount.deposit (self : InfAccount) (_item : Item) : InfAccount :=
  self

/-- Embeds `InfAccount.effective_item` (src/main.py, lines 25-26). -/
def InfAccount.effective_item (self : InfAccount) : Item :=
  Item.mk 0 0 0 self.kind "?"

/-- Embeds the `Transfer` dataclass (src/main.py, lines 28-33). -/
structure Transfer where
  src : String
  src_size : ℚ
  dest : String
  dest_size : ℚ
deriving DecidableEq

/-- Sum of a numeric field over a list of items (the Python list
comprehensions `sum([i.size for i in self.items])` and friends). -/
def sumBy (f : Item → ℚ) (l : List Item) : ℚ :=
  (l.map f).sum

/-- Embeds the `Account` class state (src/main.py, lines 78-81): a kind tag
and a FIFO queue of lots, oldest first. -/
structure Account where
  kind : String
  items : List Item
deriving DecidableEq

/-- Embeds `Account.deposit` (src/main.py, lines 83-87).  The kind-mismatch
`raise` is embedded as `none`. -/
def Account.deposit (self : Account) (item : Item) : Option Account :=
  if item.kind ≠ self.kind then none
  else some (Account.mk self.kind (self.items ++ [item]))

/-- Embeds `Account.size` (src/main.py, lines 89-91). -/
def Account.size (self : Account) : ℚ :=
  sumBy Item.size self.items

/-- Embeds `Account.cost` (src/main.py, lines 93-95). -/
def Account.cost (self : Account) : ℚ :=
  sumBy Item.cost self.items

/-- Embeds `Account.fees` (src/main.py, lines 97-99). -/
def Account.fees (self : Account) : ℚ :=
  sumBy Item.fees self.items

/-- Embeds `Account.effective_item` (src/main.py, lines 101-108). -/
def Account.effective_item (self : Account) : Item :=
  Item.mk self.size self.cost self.fees self.kind "?"

/-- Embeds the `while self.items:` loop of `Account.withdraw`
(src/main.py, lines 113-121).  `acc` is the item list of the local `result`
account, `items` the current queue (`self.items`).  The inner
`result.deposit(...)` can raise on a kind mismatch, hence the `Option`.
In the final branch the front lot is left (now smaller) at the front; the
piece just taken has size exactly `size - taken`, so the loop's next
iteration sees `taken >= size` and breaks — we return directly. -/
def Account.withdrawLoop (kind : String) (size : ℚ) :
    List Item → List Item → Option (List Item × List Item)
  | [], acc => some (acc, [])
  | front :: rest, acc =>
    if sumBy Item.size acc ≥ size then some (acc, front :: rest)
    else if (front.take_at_most (size - sumBy Item.size acc)).1.kind ≠ kind then
      none
    else if (front.take_at_most (size - sumBy Item.size acc)).2.size = 0 then
      Account.withdrawLoop kind size rest
        (acc ++ [(front.take_at_most (size - sumBy Item.size acc)).1])
    else
      some (acc ++ [(front.take_at_most (size - sumBy Item.size acc)).1],
        (front.take_at_most (size - sumBy Item.size acc)).2 :: rest)

/-- Embeds `Account.withdraw` (src/main.py, lines 110-122): the effective
item of the accumulator account, plus the mutated source account. -/
def Account.withdraw (self : Account) (size : ℚ) : Option (Item × Account) :=
  (Account.withdrawLoop self.kind size self.items []).map fun r =>
    ((Account.mk self.kind r.1).effective_item, Account.mk self.kind r.2)

/-! ### Helper lemmas about `take_at_most` -/

/-- Splitting an item conserves size, cost and fees between the two parts. -/
theorem take_at_most_conserve (i : Item) (s : ℚ) :
    (i.take_at_most s).1.size + (i.take_at_most s).2.size = i.size ∧
    (i.take_at_most s).1.cost + (i.take_at_most s).2.cost = i.cost ∧
    (i.take_at_most s).1.fees + (i.take_at_most s).2.fees = i.fees := by
  unfold Item.take_at_most
  split
  · simp
  · refine ⟨?_, ?_, ?_⟩
    · show s + (i.size - s) = i.size
      ring
    · show i.cost * s / i.size + (i.cost - i.cost * s / i.size) = i.cost
      ring
    · show i.fees * s / i.size + (i.fees - i.fees * s / i.size) = i.fees
      ring

/-- The taken piece keeps the source item's kind. -/
theorem take_at_most_kind (i : Item) (s : ℚ) :
    (i.take_at_most s).1.kind = i.kind := by
  unfold Item.take_at_most
  split <;> rfl

/-- When the remainder of a split has size zero, the split was the
whole-item branch: the request covered the item's size and the remainder's
cost and fees are zero too. -/
theorem take_at_most_rem_zero (i : Item) (s : ℚ)
    (h : (i.take_at_most s).2.size = 0) :
    i.size ≤ s ∧ (i.take_at_most s).2.cost = 0 ∧ (i.take_at_most s).2.fees = 0 ∧
    (i.take_at_most s).1 = Item.mk i.size i.cost i.fees i.kind i.date := by
  unfold Item.take_at_most at h ⊢
  by_cases hc : s ≥ i.size
  · rw [if_pos hc] at h ⊢
    exact ⟨hc, rfl, rfl, rfl⟩
  · rw [if_neg hc] at h ⊢
    exfalso
    have hs : s < i.size := lt_of_not_ge hc
    have hz : i.size - s = 0 := h
    linarith

/-- Evaluation of `take_at_most` in the whole-item branch. -/
theorem take_at_most_eq_of_ge (i : Item) (s : ℚ) (h : s ≥ i.size) :
    i.take_at_most s =
      (Item.mk i.size i.cost i.fees i.kind i.date, Item.mk 0 0 0 i.kind i.date) := by
  unfold Item.take_at_most
  rw [if_pos h]

/-- Evaluation of `take_at_most` in the proportional-split branch. -/
theorem take_at_most_eq_of_lt (i : Item) (s : ℚ) (h : s < i.size) :
    i.take_at_most s =
      (Item.mk s (i.cost * s / i.size) (i.fees * s / i.size) i.kind i.date,
       Item.mk (i.size - s) (i.cost - i.cost * s / i.size)
         (i.fees - i.fees * s / i.size) i.kind i.date) := by
  unfold Item.take_at_most
  rw [if_neg (not_le.mpr h)]

/-! ### Sums of item fields -/

@[simp] theorem sumBy_nil (f : Item → ℚ) : sumBy f [] = 0 := rfl

@[simp] theorem sumBy_cons (f : Item → ℚ) (i : Item) (l : List Item) :
    sumBy f (i :: l) = f i + sumBy f l := by
  simp [sumBy]

@[simp] theorem sumBy_append (f : Item → ℚ) (l1 l2 : List Item) :
    sumBy f (l1 ++ l2) = sumBy f l1 + sumBy f l2 := by
  simp [sumBy]

theorem sumBy_size_nonneg (l : List Item) (h : ∀ i ∈ l, 0 ≤ i.size) :
    0 ≤ sumBy Item.size l := by
  induction l with
  | nil => simp
  | cons a t ih =>
    rw [sumBy_cons]
    have ha := h a (by simp)
    have ht := ih fun i hi => h i (by simp [hi])
    linarith

/-! ### C1 -/

/-- C1: for a lot `L` with `L.size > 0` and a requested size `0 ≤ s ≤ L.size`,
`take_at_most` yields `taken.size = s`, `taken.cost = L.cost * s / L.size`,
`taken.fees = L.fees * s / L.size`, kind and date copied, and taken plus the
remainder reproduce `L` exactly in size, cost and fees. -/
theorem c1_lot_split_additivity (L : Item) (s : ℚ)
    (h0 : 0 < L.size) (h1 : 0 ≤ s) (h2 : s ≤ L.size) :
    (L.take_at_most s).1.size = s ∧
    (L.take_at_most s).1.cost = L.cost * s / L.size ∧
    (L.take_at_most s).1.fees = L.fees * s / L.size ∧
    (L.take_at_most s).1.kind = L.kind ∧
    (L.take_at_most s).1.date = L.date ∧
    (L.take_at_most s).1.size + (L.take_at_most s).2.size = L.size ∧
    (L.take_at_most s).1.cost + (L.take_at_most s).2.cost = L.cost ∧
    (L.take_at_most s).1.fees + (L.take_at_most s).2.fees = L.fees := by
  have hne : L.size ≠ 0 := ne_of_gt h0
  unfold Item.take_at_most
  by_cases hc : s ≥ L.size
  · have hs : s = L.size := le_antisymm h2 hc
    rw [if_pos hc]
    subst hs
    refine ⟨rfl, ?_, ?_, rfl, rfl, by simp, by simp, by simp⟩
    · rw [mul_div_assoc, div_self hne, mul_one]
    · rw [mul_div_assoc, div_self hne, mul_one]
  · rw [if_neg hc]
    refine ⟨rfl, rfl, rfl, rfl, rfl, ?_, ?_, ?_⟩
    · show s + (L.size - s) = L.size
      ring
    · show L.cost * s / L.size + (L.cost - L.cost * s / L.size) = L.cost
      ring
    · show L.fees * s / L.size + (L.fees - L.fees * s / L.size) = L.fees
      ring

/-- Witness for C1 at `L = (4, 8, 2)`, `s = 1`. -/
theorem c1_lot_split_additivity_witness :
    (0 : ℚ) < 4 ∧
    (((Item.mk 4 8 2 "btc" "d").take_at_most 1).1.size = 1 ∧
     ((Item.mk 4 8 2 "btc" "d").take_at_most 1).1.cost = (8 : ℚ) * 1 / 4 ∧
     ((Item.mk 4 8 2 "btc" "d").take_at_most 1).1.fees = (2 : ℚ) * 1 / 4 ∧
     ((Item.mk 4 8 2 "btc" "d").take_at_most 1).1.kind = "btc" ∧
     ((Item.mk 4 8 2 "btc" "d").take_at_most 1).1.date = "d" ∧
     ((Item.mk 4 8 2 "btc" "d").take_at_most 1).1.size +
       ((Item.mk 4 8 2 "btc" "d").take_at_most 1).2.size = 4 ∧
     ((Item.mk 4 8 2 "btc" "d").take_at_most 1).1.cost +
       ((Item.mk 4 8 2 "btc" "d").take_at_most 1).2.cost = 8 ∧
     ((Item.mk 4 8 2 "btc" "d").take_at_most 1).1.fees +
       ((Item.mk 4 8 2 "btc" "d").take_at_most 1).2.fees = 2) :=
  ⟨by norm_num,
   c1_lot_split_additivity (Item.mk 4 8 2 "btc" "d") 1 (by norm_num)
     (by norm_num) (by norm_num)⟩

/-! ### C9 -/

/-- C9 (amended): splitting a lot of size 0 with a non-negative request
performs no division — it takes the whole-item branch — and the taken part
has size 0 with the lot's cost and fees copied unchanged (a zero lot exactly
when the lot's cost and fees are zero); the source lot is zeroed. -/
theorem c9_zero_size_split (L : Item) (s : ℚ)
    (h0 : L.size = 0) (hs : 0 ≤ s) :
    L.take_at_most s =
      (Item.mk 0 L.cost L.fees L.kind L.date, Item.mk 0 0 0 L.kind L.date) := by
  unfold Item.take_at_most
  rw [if_pos (by rw [h0]; exact hs), h0]

/-- Witness for C9 at `L = (0, 5, 1)`, `s = 3`. -/
theorem c9_zero_size_split_witness :
    (Item.mk 0 5 1 "btc" "d").size = 0 ∧ (0 : ℚ) ≤ 3 ∧
    (Item.mk 0 5 1 "btc" "d").take_at_most 3 =
      (Item.mk 0 5 1 "btc" "d", Item.mk 0 0 0 "btc" "d") :=
  ⟨rfl, by norm_num, c9_zero_size_split (Item.mk 0 5 1 "btc" "d") 3 rfl (by norm_num)⟩

/-- Counterexample to C9 as stated: the lot `(size 0, cost 5, fees 1)` has
size 0, the request 3 is non-negative, yet the taken part is not a zero lot —
its cost is 5. -/
theorem c9_counterexample :
    (((Item.mk 0 5 1 "btc" "d").take_at_most 3).1.cost = 5) ∧ (5 : ℚ) ≠ 0 := by
  constructor
  · rfl
  · norm_num

/-! ### Conservation through the withdraw loop -/

/-- Each pass of the withdraw loop conserves total size, cost and fees:
whatever ends up in the accumulator plus what remains in the queue equals
what was in the accumulator plus the whole queue at entry. -/
theorem withdrawLoop_conserve (kind : String) (s : ℚ) :
    ∀ (items acc accOut rem : List Item),
      Account.withdrawLoop kind s items acc = some (accOut, rem) →
      sumBy Item.size accOut + sumBy Item.size rem
          = sumBy Item.size acc + sumBy Item.size items ∧
      sumBy Item.cost accOut + sumBy Item.cost rem
          = sumBy Item.cost acc + sumBy Item.cost items ∧
      sumBy Item.fees accOut + sumBy Item.fees rem
          = sumBy Item.fees acc + sumBy Item.fees items := by
  intro items
  induction items with
  | nil =>
    intro acc accOut rem h
    rw [Account.withdrawLoop] at h
    obtain ⟨rfl, rfl⟩ : acc = accOut ∧ [] = rem := by
      simpa [Prod.ext_iff] using h
    simp
  | cons front rest ih =>
    intro acc accOut rem h
    rw [Account.withdrawLoop] at h
    split_ifs at h with h1 h2 h3
    · obtain ⟨rfl, rfl⟩ : acc = accOut ∧ front :: rest = rem := by
        simpa [Prod.ext_iff] using h
      refine ⟨rfl, rfl, rfl⟩
    · obtain ⟨hzc, hzf, hp1⟩ := (take_at_most_rem_zero front _ h3).2
      obtain ⟨c1, c2, c3⟩ := ih _ _ _ h
      have e1 : (front.take_at_most (s - sumBy Item.size acc)).1.size = front.size := by
        rw [hp1]
      have e2 : (front.take_at_most (s - sumBy Item.size acc)).1.cost = front.cost := by
        rw [hp1]
      have e3 : (front.take_at_most (s - sumBy Item.size acc)).1.fees = front.fees := by
        rw [hp1]
      simp only [sumBy_append, sumBy_cons, sumBy_nil] at c1 c2 c3 ⊢
      refine ⟨by linarith, by linarith, by linarith⟩
    · obtain ⟨rfl, rfl⟩ :
          acc ++ [(front.take_at_most (s - sumBy Item.size acc)).1] = accOut ∧
          (front.take_at_most (s - sumBy Item.size acc)).2 :: rest = rem := by
        simpa [Prod.ext_iff] using h
      obtain ⟨t1, t2, t3⟩ :=
        take_at_most_conserve front (s - sumBy Item.size acc)
      simp only [sumBy_append, sumBy_cons, sumBy_nil]
      refine ⟨by linarith, by linarith, by linarith⟩

/-- Under the Account invariant (every queued lot has the account's kind and
a non-negative size) the withdraw loop never hits the kind-mismatch raise,
and it accumulates exactly `min s (entry + queue total)`. -/
theorem withdrawLoop_fills (kind : String) (s : ℚ) :
    ∀ (items acc : List Item),
      (∀ i ∈ items, i.kind = kind) →
      (∀ i ∈ items, 0 ≤ i.size) →
      sumBy Item.size acc ≤ s →
      ∃ accOut rem,
        Account.withdrawLoop kind s items acc = some (accOut, rem) ∧
        sumBy Item.size accOut
          = min s (sumBy Item.size acc + sumBy Item.size items) := by
  intro items
  induction items with
  | nil =>
    intro acc _ _ hle
    exact ⟨acc, [], rfl, by rw [sumBy_nil, add_zero, min_eq_right hle]⟩
  | cons front rest ih =>
    intro acc hk hpos hle
    have hfront : 0 ≤ front.size := hpos front (by simp)
    have hrest : 0 ≤ sumBy Item.size rest :=
      sumBy_size_nonneg rest fun i hi => hpos i (by simp [hi])
    rw [Account.withdrawLoop]
    by_cases h1 : sumBy Item.size acc ≥ s
    · rw [if_pos h1]
      have hsum : sumBy Item.size acc = s := le_antisymm hle h1
      refine ⟨acc, front :: rest, rfl, ?_⟩
      rw [sumBy_cons, hsum, min_eq_left (by linarith)]
    · rw [if_neg h1]
      have hlt : sumBy Item.size acc < s := lt_of_not_ge h1
      have hkind :
          ¬ ((front.take_at_most (s - sumBy Item.size acc)).1.kind ≠ kind) := by
        rw [take_at_most_kind]
        simp [hk front (by simp)]
      rw [if_neg hkind]
      by_cases hge : s - sumBy Item.size acc ≥ front.size
      · have hev := take_at_most_eq_of_ge front (s - sumBy Item.size acc) hge
        rw [if_pos (by rw [hev])]
        obtain ⟨accOut, rem, heq, hmin⟩ :=
          ih (acc ++ [(front.take_at_most (s - sumBy Item.size acc)).1])
            (fun i hi => hk i (by simp [hi]))
            (fun i hi => hpos i (by simp [hi]))
            (by rw [sumBy_append, hev]; simp only [sumBy_cons, sumBy_nil]
                simp only [add_zero]; linarith)
        refine ⟨accOut, rem, heq, ?_⟩
        rw [hmin, sumBy_append, hev]
        simp only [sumBy_cons, sumBy_nil, add_zero]
        rw [add_assoc]
      · have hltf : s - sumBy Item.size acc < front.size := lt_of_not_ge hge
        have hev := take_at_most_eq_of_lt front (s - sumBy Item.size acc) hltf
        have hne : ¬ ((front.take_at_most (s - sumBy Item.size acc)).2.size = 0) := by
          rw [hev]
          show ¬ (front.size - (s - sumBy Item.size acc) = 0)
          intro hzz
          linarith
        rw [if_neg hne]
        refine ⟨_, _, rfl, ?_⟩
        rw [sumBy_append, hev]
        simp only [sumBy_cons, sumBy_nil, add_zero]
        show sumBy Item.size acc + (s - sumBy Item.size acc)
            = min s (sumBy Item.size acc + (front.size + sumBy Item.size rest))
        rw [min_eq_left (by linarith)]
        ring

/-! ### C10 -/

/-- C10: a withdrawal conserves the account's contents — the returned
effective lot plus the account's totals afterwards equal the totals before,
for size, cost and fees, and the account's kind is unchanged. -/
theorem c10_withdraw_conservation (a : Account) (s : ℚ) (l : Item) (a2 : Account)
    (_hs : 0 ≤ s) (h : a.withdraw s = some (l, a2)) :
    l.size + a2.size = a.size ∧ l.cost + a2.cost = a.cost ∧
    l.fees + a2.fees = a.fees ∧ a2.kind = a.kind := by
  unfold Account.withdraw at h
  obtain ⟨r, hr, hf⟩ := Option.map_eq_some'.mp h
  obtain ⟨hl, ha2⟩ := Prod.ext_iff.mp hf
  obtain ⟨c1, c2, c3⟩ := withdrawLoop_conserve a.kind s a.items [] r.1 r.2 hr
  rw [sumBy_nil, zero_add] at c1 c2 c3
  subst hl
  subst ha2
  exact ⟨c1, c2, c3, rfl⟩

/-- Witness for C10 on an account holding two lots, withdrawing 2. -/
theorem c10_withdraw_conservation_witness :
    (0 : ℚ) ≤ 2 ∧
    (Account.mk "btc" [Item.mk 1 10 3 "btc" "d", Item.mk 2 30 1 "btc" "e"]).withdraw 2
      = some (Item.mk 2 25 (7/2) "btc" "?",
          Account.mk "btc" [Item.mk 1 15 (1/2) "btc" "e"]) ∧
    ((Item.mk 2 25 (7/2) "btc" "?").size
        + (Account.mk "btc" [Item.mk 1 15 (1/2) "btc" "e"]).size
      = (Account.mk "btc" [Item.mk 1 10 3 "btc" "d", Item.mk 2 30 1 "btc" "e"]).size ∧
     (Item.mk 2 25 (7/2) "btc" "?").cost
        + (Account.mk "btc" [Item.mk 1 15 (1/2) "btc" "e"]).cost
      = (Account.mk "btc" [Item.mk 1 10 3 "btc" "d", Item.mk 2 30 1 "btc" "e"]).cost ∧
     (Item.mk 2 25 (7/2) "btc" "?").fees
        + (Account.mk "btc" [Item.mk 1 15 (1/2) "btc" "e"]).fees
      = (Account.mk "btc" [Item.mk 1 10 3 "btc" "d", Item.mk 2 30 1 "btc" "e"]).fees ∧
     (Account.mk "btc" [Item.mk 1 15 (1/2) "btc" "e"]).kind
      = (Account.mk "btc" [Item.mk 1 10 3 "btc" "d", Item.mk 2 30 1 "btc" "e"]).kind) := by
  have hev :
      (Account.mk "btc" [Item.mk 1 10 3 "btc" "d", Item.mk 2 30 1 "btc" "e"]).withdraw 2
        = some (Item.mk 2 25 (7/2) "btc" "?",
            Account.mk "btc" [Item.mk 1 15 (1/2) "btc" "e"]) := by
    norm_num [Account.withdraw, Account.withdrawLoop, Item.take_at_most,
      Account.effective_item, Account.size, Account.cost, Account.fees]
  exact ⟨by norm_num, hev,
    c10_withdraw_conservation
      (Account.mk "btc" [Item.mk 1 10 3 "btc" "d", Item.mk 2 30 1 "btc" "e"]) 2
      (Item.mk 2 25 (7/2) "btc" "?")
      (Account.mk "btc" [Item.mk 1 15 (1/2) "btc" "e"])
      (by norm_num) hev⟩

/-! ### C2 -/

/-- C2 (amended): under the Account invariant (queued lots carry the
account's kind and non-negative sizes) and a non-negative request,
`withdraw` does not raise and returns the accumulated FIFO lot, whose size
is `min s (account total)`; the shortfall `max 0 (s - lot.size)` is
recoverable by the caller from the returned lot, but it is not part of the
return value — `withdraw` returns only the lot (and the mutated queue). -/
theorem c2_withdraw_short_filled (a : Account) (s : ℚ)
    (hk : ∀ i ∈ a.items, i.kind = a.kind)
    (hpos : ∀ i ∈ a.items, 0 ≤ i.size)
    (hs : 0 ≤ s) :
    ∃ l a2, a.withdraw s = some (l, a2) ∧
      l.size = min s a.size ∧
      max 0 (s - l.size) = max 0 (s - a.size) := by
  obtain ⟨accOut, rem, heq, hmin⟩ :=
    withdrawLoop_fills a.kind s a.items [] hk hpos (by rw [sumBy_nil]; exact hs)
  refine ⟨(Account.mk a.kind accOut).effective_item, Account.mk a.kind rem, ?_, ?_, ?_⟩
  · unfold Account.withdraw
    rw [heq]
    rfl
  · show sumBy Item.size accOut = min s a.size
    rw [hmin, sumBy_nil, zero_add]
    rfl
  · have hl : (Account.mk a.kind accOut).effective_item.size = min s a.size := by
      show sumBy Item.size accOut = min s a.size
      rw [hmin, sumBy_nil, zero_add]
      rfl
    rw [hl]
    rcases le_total s a.size with hc | hc
    · rw [min_eq_left hc, sub_self]
      rw [max_eq_left le_rfl, max_eq_left (by linarith)]
    · rw [min_eq_right hc]

/-- Witness for C2 (amended) on an account holding one lot of size 1,
withdrawing 2 (a shortfall of 1). -/
theorem c2_withdraw_short_filled_witness :
    (∀ i ∈ (Account.mk "btc" [Item.mk 1 10 3 "btc" "d"]).items,
        i.kind = (Account.mk "btc" [Item.mk 1 10 3 "btc" "d"]).kind) ∧
    (∀ i ∈ (Account.mk "btc" [Item.mk 1 10 3 "btc" "d"]).items, 0 ≤ i.size) ∧
    (0 : ℚ) ≤ 2 ∧
    (∃ l a2, (Account.mk "btc" [Item.mk 1 10 3 "btc" "d"]).withdraw 2 = some (l, a2) ∧
      l.size = min 2 (Account.mk "btc" [Item.mk 1 10 3 "btc" "d"]).size ∧
      max 0 (2 - l.size) = max 0 (2 - (Account.mk "btc" [Item.mk 1 10 3 "btc" "d"]).size)) :=
  ⟨by simp, by norm_num, by norm_num,
   c2_withdraw_short_filled (Account.mk "btc" [Item.mk 1 10 3 "btc" "d"]) 2
     (by simp) (by norm_num) (by norm_num)⟩

/-- Counterexample to C2 as stated: withdrawing 2 from an account holding a
single lot of size 1 silently returns only the short-filled lot (size 1,
which is less than the 2 requested) together with the emptied queue — the
full return value is exhibited below and contains no shortfall component. -/
theorem c2_counterexample :
    (Account.mk "btc" [Item.mk 1 10 3 "btc" "d"]).withdraw 2
      = some (Item.mk 1 10 3 "btc" "?", Account.mk "btc" []) ∧
    (Item.mk 1 10 3 "btc" "?").size < 2 := by
  constructor
  · norm_num [Account.withdraw, Account.withdrawLoop, Item.take_at_most,
      Account.effective_item, Account.size, Account.cost, Account.fees]
  · show (1 : ℚ) < 2
    norm_num

/-! ### C6 -/

/-- C6 (amended): for lots `A` and `B` of the account's kind with
`A.size > 0`, depositing `A` then `B` and withdrawing `A.size` returns a lot
with exactly `A`'s size, cost and fees, and leaves exactly `B` in the
account. -/
theorem c6_fifo_order (k : String) (A B : Item)
    (hA : A.kind = k) (hB : B.kind = k) (hApos : 0 < A.size) :
    (Account.mk k []).deposit A = some (Account.mk k [A]) ∧
    (Account.mk k [A]).deposit B = some (Account.mk k [A, B]) ∧
    (Account.mk k [A, B]).withdraw A.size
      = some (Item.mk A.size A.cost A.fees k "?", Account.mk k [B]) := by
  refine ⟨?_, ?_, ?_⟩
  · unfold Account.deposit
    rw [if_neg (by simp [hA])]
    rfl
  · unfold Account.deposit
    rw [if_neg (by simp [hB])]
    rfl
  · unfold Account.withdraw
    rw [Account.withdrawLoop]
    rw [if_neg (by rw [sumBy_nil]; exact not_le.mpr hApos)]
    have hev := take_at_most_eq_of_ge A (A.size - sumBy Item.size []) (by
      rw [sumBy_nil]; linarith)
    rw [if_neg (by rw [hev]; simp [hA])]
    rw [if_pos (by rw [hev])]
    rw [Account.withdrawLoop]
    rw [if_pos (by rw [hev]; simp)]
    rw [hev]
    simp [Account.effective_item, Account.size, Account.cost, Account.fees, sumBy]

/-- Witness for C6 (amended) with `A = (2, 7, 1)`, `B = (3, 9, 4)`. -/
theorem c6_fifo_order_witness :
    (Item.mk 2 7 1 "btc" "d").kind = "btc" ∧ (0 : ℚ) < 2 ∧
    ((Account.mk "btc" []).deposit (Item.mk 2 7 1 "btc" "d")
        = some (Account.mk "btc" [Item.mk 2 7 1 "btc" "d"]) ∧
     (Account.mk "btc" [Item.mk 2 7 1 "btc" "d"]).deposit (Item.mk 3 9 4 "btc" "e")
        = some (Account.mk "btc" [Item.mk 2 7 1 "btc" "d", Item.mk 3 9 4 "btc" "e"]) ∧
     (Account.mk "btc" [Item.mk 2 7 1 "btc" "d", Item.mk 3 9 4 "btc" "e"]).withdraw
         (Item.mk 2 7 1 "btc" "d").size
        = some (Item.mk (Item.mk 2 7 1 "btc" "d").size (Item.mk 2 7 1 "btc" "d").cost
            (Item.mk 2 7 1 "btc" "d").fees "btc" "?",
          Account.mk "btc" [Item.mk 3 9 4 "btc" "e"])) :=
  ⟨rfl, by norm_num,
   c6_fifo_order "btc" (Item.mk 2 7 1 "btc" "d") (Item.mk 3 9 4 "btc" "e")
     rfl rfl (by norm_num)⟩

/-- Counterexample to C6 as stated: with `A = (size 0, cost 5, fees 0)` and
`B = (1, 2, 3)` (same kind), depositing `A` then `B` and withdrawing
`A.size = 0` returns the zero lot — its cost 0 is not `A`'s cost 5. -/
theorem c6_counterexample :
    (Account.mk "btc" [Item.mk 0 5 0 "btc" "d", Item.mk 1 2 3 "btc" "e"]).withdraw
        (Item.mk 0 5 0 "btc" "d").size
      = some (Item.mk 0 0 0 "btc" "?",
          Account.mk "btc" [Item.mk 0 5 0 "btc" "d", Item.mk 1 2 3 "btc" "e"]) ∧
    (Item.mk 0 0 0 "btc" "?").cost ≠ (Item.mk 0 5 0 "btc" "d").cost := by
  constructor
  · norm_num [Account.withdraw, Account.withdrawLoop, Item.take_at_most,
      Account.effective_item, Account.size, Account.cost, Account.fees]
  · show (0 : ℚ) ≠ 5
    norm_num

/-! ### Rows, grouping and classification -/

/-- Embeds a ledger row (the CSV dict): fields `type`, `trade id`,
`amount`, `amount/balance unit`, `time`.  `amount` holds the value of
Python's `float(row['amount'])` — parsing the decimal string is the
excluded external collaborator. -/
structure Row where
  type_ : String
  trade_id : String
  amount : ℚ
  unit : String
  time : String
deriving DecidableEq

/-- The two shapes `group_by` yields: a list of rows (`yield match`) or a
bare row (`yield item`), distinguishable exactly as Python's
`isinstance(group, list)` test does. -/
inductive Grouped (α : Type) where
  | group (rows : List α) : Grouped α
  | standalone (row : α) : Grouped α
deriving DecidableEq

/-- Embeds the loop of `group_by` (src/main.py, lines 124-139).  `buf` is
the local `match` buffer; the key-less (`None`) case flushes any open
buffer and emits the row standalone; a matching key appends; a differing
key flushes and restarts the buffer; the end flushes. -/
def group_by_go {α κ : Type} [DecidableEq κ] (fn : α → Option κ) :
    List α → List α → List (Grouped α)
  | [], buf => if buf.isEmpty then [] else [Grouped.group buf]
  | x :: rest, buf =>
    match fn x with
    | none =>
      (if buf.isEmpty then [] else [Grouped.group buf]) ++
        Grouped.standalone x :: group_by_go fn rest []
    | some k =>
      match buf with
      | [] => group_by_go fn rest [x]
      | b :: bs =>
        if fn b = some k then group_by_go fn rest (b :: (bs ++ [x]))
        else Grouped.group (b :: bs) :: group_by_go fn rest [x]

/-- Embeds `group_by(src, fn)` (src/main.py, lines 124-139). -/
def group_by {α κ : Type} [DecidableEq κ] (src : List α) (fn : α → Option κ) :
    List (Grouped α) :=
  group_by_go fn src []

/-- Models the Python builtin `int(...)` on the decimal-digit strings that
trade ids carry: fold the digits into a number; any non-digit character
yields `none` (Python would raise `ValueError` there, which no row in
scope exercises). -/
def parseNatDigits (acc : Nat) : List Char → Option Nat
  | [] => some acc
  | c :: cs =>
    if c.isDigit then parseNatDigits (acc * 10 + (c.toNat - 48)) cs else none

/-- Embeds `trade_id_or_none` (src/main.py, lines 204-209): the parsed
integer trade id, or `none` for an empty trade id (the grouping sentinel). -/
def trade_id_or_none (item : Row) : Option Int :=
  if 0 < item.trade_id.length then
    (parseNatDigits 0 item.trade_id.data).map Int.ofNat
  else none

/-- The values `item_adapter` yields into the processing loop: an `Item`
(acquisition/disposal) or a `Transfer`. -/
inductive Event where
  | item (i : Item) : Event
  | transfer (t : Transfer) : Event
deriving DecidableEq

/-- Embeds `to_item` (src/main.py, lines 145-181).  The
`next(iter(filter(...)))` lookups for the negative and positive `match`
legs raise `StopIteration` when no row qualifies, and nothing catches it:
that raise is `.error ()`.  Only the fee lookup's raise is caught (lines
148-152), defaulting the fee amount to 0. -/
def to_item (inpro_match : List Row) : Except Unit Event :=
  match inpro_match.find? (fun x => x.type_ == "match" && decide (x.amount < 0)),
        inpro_match.find? (fun x => x.type_ == "match" && decide (0 < x.amount)) with
  | some src, some dest =>
    let feeAmt : ℚ :=
      match inpro_match.find? (fun x => x.type_ == "fee") with
      | some f => f.amount
      | none => 0
    if src.unit ≠ "USD" ∧ dest.unit ≠ "USD" then
      Except.ok (Event.transfer
        (Transfer.mk src.unit.toLower |src.amount| dest.unit.toLower |dest.amount|))
    else
      let usd := if src.unit = "USD" then src else dest
      let acct := if src.unit = "USD" then dest else src
      let item := Item.mk |acct.amount| |usd.amount| |feeAmt| acct.unit.toLower usd.time
      if 0 < usd.amount then Except.ok (Event.item { item with size := -item.size })
      else Except.ok (Event.item item)
  | _, _ => Except.error ()

/-- Embeds the body of `item_adapter`'s loop over groups (src/main.py,
lines 183-201): a list group goes through `to_item` (the `if item:` guard
is always truthy for the dataclasses `to_item` returns); a standalone
`deposit`/`withdrawal` row becomes a boundary `Transfer`; any other
standalone row yields nothing. -/
def adapt_groups : List (Grouped Row) → Except Unit (List Event)
  | [] => Except.ok []
  | Grouped.group g :: rest => do
    let e ← to_item g
    let es ← adapt_groups rest
    Except.ok (e :: es)
  | Grouped.standalone r :: rest => do
    let es ← adapt_groups rest
    if r.type_ = "deposit" then
      Except.ok (Event.transfer (Transfer.mk ("inf_" ++ r.unit.toLower) |r.amount|
        r.unit.toLower |r.amount|) :: es)
    else if r.type_ = "withdrawal" then
      Except.ok (Event.transfer (Transfer.mk r.unit.toLower |r.amount|
        ("inf_" ++ r.unit.toLower) |r.amount|) :: es)
    else Except.ok es

/-- Embeds `item_adapter` (src/main.py, lines 141-201): the list of events
yielded for a row stream, or `.error ()` if an uncaught exception escapes. -/
def item_adapter (rows : List Row) : Except Unit (List Event) :=
  adapt_groups (group_by rows trade_id_or_none)

/-! ### C8 -/

/-- C8: grouping contiguity and standalone handling: (i) three rows with
trade ids "1", "1", "2" group as `[r1, r2]` then `[r3]`; (ii) generically,
a key-less row between same-key rows flushes the open buffer, is emitted
standalone (a constructor distinct from a one-row group), and merges into
neither neighboring group. -/
theorem c8_grouping_contiguity :
    (∀ r1 r2 r3 : Row, r1.trade_id = "1" → r2.trade_id = "1" → r3.trade_id = "2" →
      group_by [r1, r2, r3] trade_id_or_none
        = [Grouped.group [r1, r2], Grouped.group [r3]]) ∧
    (∀ (α κ : Type) [DecidableEq κ] (fn : α → Option κ) (k : κ)
        (r1 r2 w r4 r5 : α),
      fn r1 = some k → fn r2 = some k → fn w = none →
      fn r4 = some k → fn r5 = some k →
      group_by [r1, r2, w, r4, r5] fn
        = [Grouped.group [r1, r2], Grouped.standalone w, Grouped.group [r4, r5]]) := by
  constructor
  · intro r1 r2 r3 h1 h2 h3
    have e1 : trade_id_or_none r1 = some 1 := by
      unfold trade_id_or_none
      rw [h1]
      decide
    have e2 : trade_id_or_none r2 = some 1 := by
      unfold trade_id_or_none
      rw [h2]
      decide
    have e3 : trade_id_or_none r3 = some 2 := by
      unfold trade_id_or_none
      rw [h3]
      decide
    simp [group_by, group_by_go, e1, e2, e3]
  · intro α κ inst fn k r1 r2 w r4 r5 h1 h2 h3 h4 h5
    simp [group_by, group_by_go, h1, h2, h3, h4, h5]

/-- Witness for C8: concrete rows for part (i); `ℕ` rows with an explicit
key function for part (ii). -/
theorem c8_grouping_contiguity_witness :
    group_by [Row.mk "a" "1" 0 "u" "t", Row.mk "b" "1" 0 "u" "t",
        Row.mk "c" "2" 0 "u" "t"] trade_id_or_none
      = [Grouped.group [Row.mk "a" "1" 0 "u" "t", Row.mk "b" "1" 0 "u" "t"],
         Grouped.group [Row.mk "c" "2" 0 "u" "t"]] ∧
    group_by [1, 2, 0, 3, 4] (fun n : ℕ => if n = 0 then none else some 0)
      = [Grouped.group [1, 2], Grouped.standalone 0, Grouped.group [3, 4]] :=
  ⟨c8_grouping_contiguity.1 (Row.mk "a" "1" 0 "u" "t") (Row.mk "b" "1" 0 "u" "t")
      (Row.mk "c" "2" 0 "u" "t") rfl rfl rfl,
   c8_grouping_contiguity.2 ℕ ℕ (fun n : ℕ => if n = 0 then none else some 0) 0
      1 2 0 3 4 rfl rfl rfl rfl rfl⟩

/-! ### C5 -/

/-- C5 (amended, as the code and spec §4.5 have it): in a group with a
`match` USD leg and a `match` non-USD asset leg, a positive USD amount with
a negative asset amount classifies as a Sale — `size = -|asset amount|`,
`cost = |USD amount|`, fees 0 absent a fee row, kind the lowercased asset
unit, date the USD leg's time; the sign-inverted group (negative USD leg,
positive asset leg) classifies as a Purchase with `size = +|asset amount|`. -/
theorem c5_classification_sign_rule (rUsd rAsset : Row)
    (h1 : rUsd.type_ = "match") (h2 : rUsd.unit = "USD")
    (h3 : rAsset.type_ = "match") (h4 : rAsset.unit ≠ "USD") :
    (0 < rUsd.amount → rAsset.amount < 0 →
      to_item [rUsd, rAsset]
        = Except.ok (Event.item (Item.mk (-|rAsset.amount|) |rUsd.amount| 0
            rAsset.unit.toLower rUsd.time))) ∧
    (rUsd.amount < 0 → 0 < rAsset.amount →
      to_item [rUsd, rAsset]
        = Except.ok (Event.item (Item.mk |rAsset.amount| |rUsd.amount| 0
            rAsset.unit.toLower rUsd.time))) := by
  constructor
  · intro hu ha
    have e1 : (rUsd.type_ == "match" && decide (rUsd.amount < 0)) = false := by
      simp [h1]
      exact hu.le
    have e2 : (rAsset.type_ == "match" && decide (rAsset.amount < 0)) = true := by
      simp [h3, ha]
    have e3 : (rUsd.type_ == "match" && decide (0 < rUsd.amount)) = true := by
      simp [h1, hu]
    have e4 : (rUsd.type_ == "fee") = false := by
      simp [h1]
    have e5 : (rAsset.type_ == "fee") = false := by
      simp [h3]
    simp only [to_item, List.find?, e1, e2, e3, e4, e5]
    simp [h2, h4, hu]
  · intro hu ha
    have e1 : (rUsd.type_ == "match" && decide (rUsd.amount < 0)) = true := by
      simp [h1, hu]
    have e2 : (rUsd.type_ == "match" && decide (0 < rUsd.amount)) = false := by
      simp [h1]
      exact hu.le
    have e3 : (rAsset.type_ == "match" && decide (0 < rAsset.amount)) = true := by
      simp [h3, ha]
    have e4 : (rUsd.type_ == "fee") = false := by
      simp [h1]
    have e5 : (rAsset.type_ == "fee") = false := by
      simp [h3]
    simp only [to_item, List.find?, e1, e2, e3, e4, e5]
    simp [h2, h4, lt_asymm hu]

/-- Witness for C5 (amended): a concrete sale group (USD +100, BTC −2) and
a concrete purchase group (USD −100, BTC +2). -/
theorem c5_classification_sign_rule_witness :
    to_item [Row.mk "match" "1" 100 "USD" "t", Row.mk "match" "1" (-2) "BTC" "t"]
      = Except.ok (Event.item (Item.mk (-|(-2 : ℚ)|) |(100 : ℚ)| 0
          "BTC".toLower "t")) ∧
    to_item [Row.mk "match" "1" (-100) "USD" "t", Row.mk "match" "1" 2 "BTC" "t"]
      = Except.ok (Event.item (Item.mk |(2 : ℚ)| |(-100 : ℚ)| 0
          "BTC".toLower "t")) :=
  ⟨(c5_classification_sign_rule (Row.mk "match" "1" 100 "USD" "t")
      (Row.mk "match" "1" (-2) "BTC" "t") rfl rfl rfl (by decide)).1
      (by norm_num) (by norm_num),
   (c5_classification_sign_rule (Row.mk "match" "1" (-100) "USD" "t")
      (Row.mk "match" "1" 2 "BTC" "t") rfl rfl rfl (by decide)).2
      (by norm_num) (by norm_num)⟩

/-- Counterexample to C5 as stated: the group with the negative USD match
leg (−100) and the positive asset match leg (+1) classifies as a Purchase —
an `Item` with positive size +1 — not as a Sale with `size = -asset_amount`. -/
theorem c5_counterexample :
    to_item [Row.mk "match" "1" (-100) "USD" "t", Row.mk "match" "1" 1 "BTC" "t"]
      = Except.ok (Event.item (Item.mk 1 100 0 "BTC".toLower "t")) ∧
    (0 : ℚ) < 1 := by
  constructor
  · rfl
  · norm_num

/-! ### C4 -/

/-- C4: a group whose asset leg is missing does NOT yield a dropped
`Unrecognized` event — the classification raises.  For the one-row group
holding only the fiat leg (`match`, USD, −5), the positive-`match` lookup's
`next(...)` raises an uncaught `StopIteration` (`.error ()`), both from
`to_item` on the group and through `item_adapter` on the row stream. -/
theorem c4_missing_asset_leg_raises :
    to_item [Row.mk "match" "7" (-5) "USD" "t"] = Except.error () ∧
    item_adapter [Row.mk "match" "7" (-5) "USD" "t"] = Except.error () := by
  constructor
  · rfl
  · rfl

/-! ### The ledger processor -/

/-- The two account implementations living in the `accounts` dict of
`process` (src/main.py, lines 214-219): real FIFO accounts and boundary
`InfAccount`s. -/
inductive Acct where
  | real (a : Account) : Acct
  | inf (a : InfAccount) : Acct
deriving DecidableEq

/-- Withdraw from either account form (Python duck-typing of
`src.withdraw(...)`). -/
def Acct.withdraw : Acct → ℚ → Option (Item × Acct)
  | Acct.real a, size => (a.withdraw size).map fun p => (p.1, Acct.real p.2)
  | Acct.inf a, size => some (a.withdraw size, Acct.inf a)

/-- Deposit into either account form. -/
def Acct.deposit : Acct → Item → Option Acct
  | Acct.real a, item => (a.deposit item).map Acct.real
  | Acct.inf a, item => some (Acct.inf (a.deposit item))

/-- Lookup in the `accounts` dict, modelled as an insertion-ordered
association list (Python dicts preserve insertion order). -/
def lookupAcct : List (String × Acct) → String → Option Acct
  | [], _ => none
  | (k, a) :: rest, key => if k = key then some a else lookupAcct rest key

/-- Replace the value bound to `key` — the model of Python mutating, in
place, the object the dict binds to that key. -/
def updateAcct : List (String × Acct) → String → Acct → List (String × Acct)
  | [], _, _ => []
  | (k, a) :: rest, key, v =>
    if k = key then (k, v) :: rest else (k, a) :: updateAcct rest key v

/-- Embeds `ensure_account` (src/main.py, lines 220-226): bind a fresh
empty real `Account` to the kind on first sight. -/
def ensure_account (accounts : List (String × Acct)) (kind : String) :
    List (String × Acct) :=
  match lookupAcct accounts kind with
  | some _ => accounts
  | none => accounts ++ [(kind, Acct.real (Account.mk kind []))]

/-- Withdraw from the account bound to `key` and write the mutated account
back into the dict. -/
def withdrawKey (m : List (String × Acct)) (key : String) (size : ℚ) :
    Option (Item × List (String × Acct)) :=
  match lookupAcct m key with
  | none => none
  | some a => (a.withdraw size).map fun p => (p.1, updateAcct m key p.2)

/-- Deposit into the account bound to `key`, writing the mutated account
back into the dict. -/
def depositKey (m : List (String × Acct)) (key : String) (item : Item) :
    Option (List (String × Acct)) :=
  match lookupAcct m key with
  | none => none
  | some a => (a.deposit item).map (updateAcct m key)

/-- The running state of `process` (src/main.py, lines 211-261): the
accounts dict and the profit/fees running totals. -/
structure PState where
  accounts : List (String × Acct)
  profit : ℚ
  fees : ℚ
deriving DecidableEq

/-- The pre-bound boundary accounts (src/main.py, lines 214-219). -/
def initial_accounts : List (String × Acct) :=
  [("usd", Acct.inf (InfAccount.mk "usd" 1)),
   ("inf_usd", Acct.inf (InfAccount.mk "usd" 1)),
   ("inf_btc", Acct.inf (InfAccount.mk "inf_btc" 0)),
   ("inf_ltc", Acct.inf (InfAccount.mk "inf_ltc" 0))]

/-- Embeds one pass of the `for item in item_adapter(r)` loop body of
`process` (src/main.py, lines 230-261).  A `Transfer` resolves both ends,
withdraws `src_size` from the source and deposits a lot of size
`dest_size` carrying the withdrawn cost and fees.  A positive `Item` is
deposited.  A negative one is matched by `withdraw(abs(size))`; the code
then mutates `effective.fees += item.fees` (modelled by `eff2`) and
computes `pprofit = item.cost - effective.cost` and
`pfee = effective.fees + item.fees` on the mutated value.  An uncaught
exception (a kind-mismatched deposit) is `none`. -/
def processEvent (st : PState) (ev : Event) : Option PState :=
  match ev with
  | Event.transfer t =>
    let m2 := ensure_account (ensure_account st.accounts t.src) t.dest
    match withdrawKey m2 t.src t.src_size with
    | none => none
    | some (eff, m3) =>
      match depositKey m3 t.dest (Item.mk t.dest_size eff.cost eff.fees t.dest "?") with
      | none => none
      | some m4 => some (PState.mk m4 st.profit st.fees)
  | Event.item i =>
    let m1 := ensure_account st.accounts i.kind
    if 0 < i.size then
      match depositKey m1 i.kind i with
      | none => none
      | some m2 => some (PState.mk m2 st.profit st.fees)
    else if i.size < 0 then
      match withdrawKey m1 i.kind |i.size| with
      | none => none
      | some (eff, m2) =>
        let eff2 := Item.mk eff.size eff.cost (eff.fees + i.fees) eff.kind eff.date
        some (PState.mk m2 (st.profit + (i.cost - eff2.cost))
          (st.fees + (eff2.fees + i.fees)))
    else some (PState.mk m1 st.profit st.fees)

/-! ### C3 -/

/-- C3: evaluating the disposal branch at a concrete input shows the fee
double-count.  The "btc" account holds the lot `(1, 10, 0)`; the disposal
is `Item(size = -1, cost = 15, fees = 2)`.  The matched lot is `(1, 10, 0)`
so the claim predicts a realized fee of `matched.fees + disposal.fees
= 0 + 2`; the code first mutates `effective.fees += item.fees` and then
adds `item.fees` again in `pfee`, producing 4.  The realized profit
`15 - 10 = 5` does follow the claim. -/
theorem c3_disposal_fee_double_count :
    processEvent
        (PState.mk [("btc", Acct.real (Account.mk "btc" [Item.mk 1 10 0 "btc" "d"]))] 0 0)
        (Event.item (Item.mk (-1) 15 2 "btc" "d2"))
      = some (PState.mk [("btc", Acct.real (Account.mk "btc" []))] 5 4) ∧
    (4 : ℚ) ≠ 0 + 2 := by
  constructor
  · norm_num [processEvent, ensure_account, lookupAcct, updateAcct, withdrawKey,
      depositKey, Acct.withdraw, Account.withdraw, Account.withdrawLoop,
      Item.take_at_most, Account.effective_item, Account.size, Account.cost,
      Account.fees]
  · norm_num

/-! ### C7 -/

/-- C7: transfer processing does not rescale cost basis: when the
`src_size` withdrawal succeeds with effective lot `eff` and the destination
is a real Account of matching kind, the processor appends to it exactly the
lot `(dest_size, eff.cost, eff.fees)` — cost and fees carried over
unchanged even though its size is `dest_size` — and leaves the profit and
fee totals untouched. -/
theorem c7_transfer_no_rescale (st : PState) (t : Transfer) (eff : Item)
    (m3 : List (String × Acct)) (a : Account)
    (hw : withdrawKey (ensure_account (ensure_account st.accounts t.src) t.dest)
        t.src t.src_size = some (eff, m3))
    (hl : lookupAcct m3 t.dest = some (Acct.real a))
    (hk : t.dest = a.kind) :
    processEvent st (Event.transfer t)
      = some (PState.mk
          (updateAcct m3 t.dest (Acct.real (Account.mk a.kind
            (a.items ++ [Item.mk t.dest_size eff.cost eff.fees t.dest "?"]))))
          st.profit st.fees) := by
  have hd : depositKey m3 t.dest (Item.mk t.dest_size eff.cost eff.fees t.dest "?")
      = some (updateAcct m3 t.dest (Acct.real (Account.mk a.kind
          (a.items ++ [Item.mk t.dest_size eff.cost eff.fees t.dest "?"])))) := by
    unfold depositKey
    rw [hl]
    simp [Acct.deposit, Account.deposit, hk]
  simp only [processEvent, hw, hd]

/-- Witness for C7: transfer 1 btc (of a 2-unit lot with cost 100, fees 10)
into "eth" with `dest_size = 3`; the deposited lot is `(3, 50, 5)` — the
withdrawn cost/fees 50/5 unrescaled. -/
theorem c7_transfer_no_rescale_witness :
    withdrawKey
        (ensure_account (ensure_account
          [("btc", Acct.real (Account.mk "btc" [Item.mk 2 100 10 "btc" "d"])),
           ("eth", Acct.real (Account.mk "eth" []))] "btc") "eth") "btc" 1
      = some (Item.mk 1 50 5 "btc" "?",
          [("btc", Acct.real (Account.mk "btc" [Item.mk 1 50 5 "btc" "d"])),
           ("eth", Acct.real (Account.mk "eth" []))]) ∧
    processEvent
        (PState.mk
          [("btc", Acct.real (Account.mk "btc" [Item.mk 2 100 10 "btc" "d"])),
           ("eth", Acct.real (Account.mk "eth" []))] 0 0)
        (Event.transfer (Transfer.mk "btc" 1 "eth" 3))
      = some (PState.mk
          (updateAcct
            [("btc", Acct.real (Account.mk "btc" [Item.mk 1 50 5 "btc" "d"])),
             ("eth", Acct.real (Account.mk "eth" []))] "eth"
            (Acct.real (Account.mk "eth"
              ([] ++ [Item.mk 3 50 5 "eth" "?"]))))
          0 0) := by
  have hw : withdrawKey
      (ensure_account (ensure_account
        [("btc", Acct.real (Account.mk "btc" [Item.mk 2 100 10 "btc" "d"])),
         ("eth", Acct.real (Account.mk "eth" []))] "btc") "eth") "btc" 1
    = some (Item.mk 1 50 5 "btc" "?",
        [("btc", Acct.real (Account.mk "btc" [Item.mk 1 50 5 "btc" "d"])),
         ("eth", Acct.real (Account.mk "eth" []))]) := by
    norm_num [withdrawKey, ensure_account, lookupAcct, updateAcct, Acct.withdraw,
      Account.withdraw, Account.withdrawLoop, Item.take_at_most,
      Account.effective_item, Account.size, Account.cost, Account.fees]
  exact ⟨hw,
    c7_transfer_no_rescale
      (PState.mk
        [("btc", Acct.real (Account.mk "btc" [Item.mk 2 100 10 "btc" "d"])),
         ("eth", Acct.real (Account.mk "eth" []))] 0 0)
      (Transfer.mk "btc" 1 "eth" 3)
      (Item.mk 1 50 5 "btc" "?")
      [("btc", Acct.real (Account.mk "btc" [Item.mk 1 50 5 "btc" "d"])),
       ("eth", Acct.real (Account.mk "eth" []))]
      (Account.mk "eth" []) hw rfl rfl⟩
